import Mathlib

/-!
Shallow embedding of the pivot-parser / reconciler / aggregator core of
`src/app/page.tsx` (an hourly-throughput spreadsheet dashboard).  JavaScript
numbers are modelled as exact rationals (ℚ); strings are modelled as `String`
over `List Char`.  Each helper mirrors one JS construct used by the source.
-/

set_option maxRecDepth 2000

namespace Reposicao

/-- JS whitespace test, restricted to the characters this program can meet:
space, tab, newline, carriage return, vertical tab, form feed, no-break
space (the relevant members of the regex class backslash-s). -/
def isJsWs (c : Char) : Bool :=
  c == ' ' || c == '\t' || c == '\n' || c == '\r' || c == '\x0b' || c == '\x0c' ||
    c == Char.ofNat 160

/-- JS `String.prototype.toUpperCase`, restricted to ASCII letters plus the
accented Latin-1 letters that occur in Portuguese labels (this is exactly how
JS uppercases these code points). -/
def jsToUpper (c : Char) : Char :=
  if c = 'á' then 'Á' else if c = 'é' then 'É' else if c = 'í' then 'Í'
  else if c = 'ó' then 'Ó' else if c = 'ú' then 'Ú'
  else if c = 'â' then 'Â' else if c = 'ê' then 'Ê' else if c = 'ô' then 'Ô'
  else if c = 'ã' then 'Ã' else if c = 'õ' then 'Õ'
  else if c = 'à' then 'À' else if c = 'ç' then 'Ç'
  else if 'a' ≤ c ∧ c ≤ 'z' then Char.ofNat (c.toNat - 32) else c

/-- Uppercase a character list (JS `toUpperCase` on the underlying text). -/
def jsUpperL (l : List Char) : List Char := l.map jsToUpper

/-- JS `String.prototype.trim`: strip whitespace from both ends. -/
def jsTrimL (l : List Char) : List Char :=
  ((l.dropWhile isJsWs).reverse.dropWhile isJsWs).reverse

/-- Whether `needle` is a prefix of `hay` (helper for substring search). -/
def startsWithChars : List Char → List Char → Bool
  | [], _ => true
  | _ :: _, [] => false
  | a :: as, b :: bs => a == b && startsWithChars as bs

/-- JS `String.prototype.includes`: substring containment. -/
def containsChars (needle : List Char) : List Char → Bool
  | [] => needle.isEmpty
  | c :: rest => startsWithChars needle (c :: rest) || containsChars needle rest

/-- Decimal digits of a natural number (JS integral number-to-string). -/
def natDigitChars (n : Nat) : List Char := Nat.toDigits 10 n

/-- Decimal expansion of a fractional part in (0,1), up to `fuel` digits.
Terminating decimals (the only non-integral values the claims touch) are
rendered exactly, matching JS shortest round-trip printing for them. -/
def fracDigitChars : ℚ → Nat → List Char
  | _, 0 => []
  | q, Nat.succ fuel =>
    if q = 0 then []
    else Char.ofNat (48 + ((q * 10).floor).toNat) ::
      fracDigitChars (q * 10 - (((q * 10).floor : ℤ) : ℚ)) fuel

/-- JS number-to-string for a nonnegative rational. -/
def jsNumCharsNN (v : ℚ) : List Char :=
  if v - ((v.floor : ℤ) : ℚ) = 0 then natDigitChars v.floor.toNat
  else natDigitChars v.floor.toNat ++ '.' :: fracDigitChars (v - ((v.floor : ℤ) : ℚ)) 20

/-- JS number-to-string (`String(x)` on a number), sign included. -/
def jsNumChars (v : ℚ) : List Char :=
  if v < 0 then '-' :: jsNumCharsNN (-v) else jsNumCharsNN v

/-- One spreadsheet cell as delivered by `sheet_to_json` with
`defval: null`: text, a number, or null/absent. -/
inductive Cell where
  | str (s : String)
  | num (v : ℚ)
  | null
deriving DecidableEq

/-- JS `String(x ?? "")` applied to a cell, as a character list. -/
def cellChars : Cell → List Char
  | .str s => s.data
  | .num v => jsNumChars v
  | .null => []

/-- One observation extracted from a pivot sheet (source type `PivotRow`). -/
structure PivotRow where
  Usuario : String
  Hora : Nat
  Valor : ℚ
deriving DecidableEq

/-- The reconciled per-(user, hour) record (source type `Row`). -/
structure Row where
  Usuario : String
  Hora : Nat
  Unidades : ℚ
  Caixas : ℚ
deriving DecidableEq

/- ------------------------- parseFloat model ------------------------- -/

/-- Numeric value of a digit list read left to right. -/
def digitsVal (ds : List Char) : Nat := ds.foldl (fun a c => a * 10 + (c.toNat - 48)) 0

/-- Mantissa part of JS `parseFloat`: digits, optional point, digits; returns
the value and the unconsumed rest, or none when no digit was consumed. -/
def pfMantissa (l : List Char) : Option (ℚ × List Char) :=
  let ip := l.takeWhile Char.isDigit
  let r1 := l.dropWhile Char.isDigit
  match r1 with
  | '.' :: r2 =>
    let fp := r2.takeWhile Char.isDigit
    let r3 := r2.dropWhile Char.isDigit
    if ip.isEmpty && fp.isEmpty then none
    else some (((digitsVal ip : ℚ) + (digitsVal fp : ℚ) / ((10 : ℚ) ^ fp.length)), r3)
  | _ => if ip.isEmpty then none else some ((digitsVal ip : ℚ), r1)

/-- Exponent digits for `parseFloat` (none when absent or malformed, in which
case JS keeps the mantissa value and ignores the trailing text). -/
def pfExpDigits (l : List Char) : Option Nat :=
  let ds := l.takeWhile Char.isDigit
  if ds.isEmpty then none else some (digitsVal ds)

/-- Signed exponent tail after the `e`/`E` marker. -/
def pfExpTail (l : List Char) : Option Int :=
  match l with
  | '-' :: r => (pfExpDigits r).map (fun n => -(n : Int))
  | '+' :: r => (pfExpDigits r).map (fun n => (n : Int))
  | r => (pfExpDigits r).map (fun n => (n : Int))

/-- Optional exponent part of `parseFloat`. -/
def pfExp (l : List Char) : Option Int :=
  match l with
  | 'e' :: rest => pfExpTail rest
  | 'E' :: rest => pfExpTail rest
  | _ => none

/-- Unsigned `parseFloat` body: mantissa then optional exponent. -/
def pfAbs (l : List Char) : Option ℚ :=
  match pfMantissa l with
  | none => none
  | some (v, r) =>
    match pfExp r with
    | none => some v
    | some e => some (v * (10 : ℚ) ^ e)

/-- JS `parseFloat` followed by the `Number.isFinite` guard of the source:
`some v` exactly when JS would produce a finite number `v`.  (JS would parse
the literal text Infinity to a non-finite value, which the guard rejects;
here that input already yields `none`, the same downstream outcome.) -/
def parseFloatJS (l : List Char) : Option ℚ :=
  match l.dropWhile isJsWs with
  | '-' :: r => (pfAbs r).map (fun v => -v)
  | '+' :: r => pfAbs r
  | r => pfAbs r

/-- The locale cleanup of source line 530: remove every dot (thousands
separator), then turn the first comma into a decimal point. -/
def replaceFirstComma : List Char → List Char
  | [] => []
  | c :: rest => if c == ',' then '.' :: rest else c :: replaceFirstComma rest

/-- Strip dots then swap the first comma for a point. -/
def numClean (l : List Char) : List Char :=
  replaceFirstComma (l.filter (fun c => !(c == '.')))

/-- Full numeric coercion of a data cell: clean then parse, keeping only
finite outcomes (source line 530-531). -/
def coerceNum (l : List Char) : Option ℚ := parseFloatJS (numClean l)

/- --------------------------- parsePivot ----------------------------- -/

/-- Header-row test of source lines 500-501: some cell, uppercased but NOT
trimmed, equals the literal USUÁRIO. -/
def rowHasUsuario (row : List Cell) : Bool :=
  row.any (fun c => jsUpperL (cellChars c) == "USUÁRIO".data)

/-- User-column test of source line 506: uppercased then trimmed text equals
USUÁRIO exactly. -/
def isUserHeaderCell (c : Cell) : Bool :=
  jsTrimL (jsUpperL (cellChars c)) == "USUÁRIO".data

/-- First run of one or two digits anywhere in the text, as the regex
match of source line 513 followed by `parseInt` (greedy two digits). -/
def firstDigitRun : List Char → Option Nat
  | [] => none
  | c :: rest =>
    if c.isDigit then
      match rest with
      | d :: _ =>
        if d.isDigit then some ((c.toNat - 48) * 10 + (d.toNat - 48))
        else some (c.toNat - 48)
      | [] => some (c.toNat - 48)
    else firstDigitRun rest

/-- Hour carried by one header cell: its first 1-2 digit run when that lies
in [0,23], otherwise nothing (source lines 513-516). -/
def hourOfHeaderCell (cell : Cell) : Option Nat :=
  match firstDigitRun (cellChars cell) with
  | none => none
  | some n => if n ≤ 23 then some n else none

/-- Hour-column bindings: every column strictly right of the user column
whose header cell yields a valid hour (source lines 510-517). -/
def extractHourCols (header : List Cell) (colUser : Nat) : List (Nat × Nat) :=
  (List.range header.length).filterMap (fun c =>
    if colUser + 1 ≤ c then
      (hourOfHeaderCell (header.getD c Cell.null)).map (fun n => (c, n))
    else none)

/-- Tuples emitted for one data row: one per hour column whose cell coerces
to a finite number (source lines 528-532). -/
def rowTuples (name : String) (cols : List (Nat × Nat)) (row : List Cell) : List PivotRow :=
  cols.filterMap (fun hc =>
    (coerceNum (cellChars (row.getD hc.1 Cell.null))).map
      (fun v => PivotRow.mk name hc.2 v))

/-- Data-row walk of source lines 521-533: skip empty-name rows, stop for
good at a name containing TOTAL, otherwise emit the row tuples. -/
def dataWalk (colUser : Nat) (cols : List (Nat × Nat)) : List (List Cell) → List PivotRow
  | [] => []
  | row :: rest =>
    let name := jsTrimL (cellChars (row.getD colUser Cell.null))
    if name.isEmpty then dataWalk colUser cols rest
    else if containsChars ("TOTAL".data) (jsUpperL name) then []
    else rowTuples (String.mk name) cols row ++ dataWalk colUser cols rest

/-- Steps 2-4 of the parser once the header row index is known. -/
def parseWithHeader (matrix : List (List Cell)) (hIdx : Nat) : List PivotRow :=
  match (matrix.getD hIdx []).findIdx? isUserHeaderCell with
  | none => []
  | some colUser =>
    let cols := extractHourCols (matrix.getD hIdx []) colUser
    if cols.isEmpty then []
    else dataWalk colUser cols (matrix.drop (hIdx + 1))

/-- The pivot parser `parsePivot` of source lines 496-535. -/
def parsePivot (matrix : List (List Cell)) : List PivotRow :=
  match matrix.findIdx? rowHasUsuario with
  | none => []
  | some hIdx => parseWithHeader matrix hIdx

/- ------------------------ sorting helpers --------------------------- -/

/-- Stable insertion used by the sort model: `le y x` reads as `y` strictly
precedes `x`; on ties the earlier element stays first, matching the stable
JS `Array.prototype.sort`. -/
def insertLe {α : Type} (le : α → α → Bool) (x : α) : List α → List α
  | [] => [x]
  | y :: ys => if le y x then y :: insertLe le x ys else x :: y :: ys

/-- Stable insertion sort with strict-precedence test `le`. -/
def sortByLe {α : Type} (le : α → α → Bool) (l : List α) : List α :=
  l.foldr (fun x acc => insertLe le x acc) []

/-- First-occurrence deduplication with a seen accumulator
(JS `Array.from(new Set(...))` keeps first occurrences, in order). -/
def jsSetList {α : Type} [BEq α] (seen : List α) : List α → List α
  | [] => []
  | x :: xs => if seen.contains x then jsSetList seen xs else x :: jsSetList (x :: seen) xs

/-- JS `Array.from(new Set(l))`. -/
def dedupFirst {α : Type} [BEq α] (l : List α) : List α := jsSetList [] l

/-- Code-point lexicographic three-way string comparison: the restriction of
JS `localeCompare` sufficient for the plain uppercase names in scope. -/
def strCmp : List Char → List Char → Int
  | [], [] => 0
  | [], _ :: _ => -1
  | _ :: _, [] => 1
  | x :: xs, y :: ys => if x = y then strCmp xs ys else if x.toNat < y.toNat then -1 else 1

/- --------------------------- Reconciler ----------------------------- -/

/-- The `r.Valor || 0` idiom of source lines 89-94: a falsy number (only 0
among rationals) defaults to 0. -/
def orZero (v : ℚ) : ℚ := if v = 0 then 0 else v

/-- The merge key of source line 86: user, double underscore, hour. -/
def rowKey (u : String) (h : Nat) : String :=
  u ++ "__" ++ String.mk (Nat.toDigits 10 h)

/-- JS `Map.has`. -/
def mapHas (m : List (String × Row)) (k : String) : Bool := m.any (fun p => p.1 == k)

/-- Update the value stored at the first matching key, keeping its position
(JS `Map` updates in place). -/
def updateFirstEntry (k : String) (f : Row → Row) : List (String × Row) → List (String × Row)
  | [] => []
  | p :: rest => if p.1 == k then (p.1, f p.2) :: rest else p :: updateFirstEntry k f rest

/-- JS `Map.set`: overwrite in place when the key exists, else append. -/
def mapSet (m : List (String × Row)) (k : String) (v : Row) : List (String × Row) :=
  if mapHas m k then updateFirstEntry k (fun _ => v) m else m ++ [(k, v)]

/-- Strict precedence of the comparator at source lines 97-99: user first
(locale comparison), then hour ascending. -/
def rowBefore (a b : Row) : Bool :=
  let c := strCmp a.Usuario.data b.Usuario.data
  if c < 0 then true else if c = 0 then decide (a.Hora < b.Hora) else false

/-- The reconciling merge of source lines 86-99: insert the units tuples,
then overlay the cases tuples, then sort by user and hour. -/
def mergePivots (un cx : List PivotRow) : List Row :=
  let m1 := un.foldl (fun m r =>
    mapSet m (rowKey r.Usuario r.Hora) (Row.mk r.Usuario r.Hora (orZero r.Valor) 0)) []
  let m2 := cx.foldl (fun m r =>
    let k := rowKey r.Usuario r.Hora
    if mapHas m k then updateFirstEntry k (fun row => { row with Caixas := orZero r.Valor }) m
    else m ++ [(k, Row.mk r.Usuario r.Hora 0 (orZero r.Valor))]) m1
  sortByLe rowBefore (m2.map (fun p => p.2))

/- --------------------------- Aggregator ----------------------------- -/

/-- Per-user aggregate shape of source lines 117-124. -/
structure UserAgg where
  u : String
  un : ℚ
  cx : ℚ
  total : ℚ
deriving DecidableEq

/-- Per-hour aggregate shape of source lines 126-132. -/
structure HourAgg where
  h : Nat
  un : ℚ
  cx : ℚ
  total : ℚ
deriving DecidableEq

/-- Distinct users in first-appearance order (source line 111). -/
def usersOf (rows : List Row) : List String := dedupFirst (rows.map (fun r => r.Usuario))

/-- Distinct hours sorted ascending (source lines 112-115). -/
def hoursOf (rows : List Row) : List Nat :=
  sortByLe (fun a b => decide (a < b)) (dedupFirst (rows.map (fun r => r.Hora)))

/-- Aggregate of one user: filtered sums of units and cases, and their
total (the map body of source lines 118-122). -/
def userAggOf (rows : List Row) (u : String) : UserAgg :=
  UserAgg.mk u
    (((rows.filter (fun r => r.Usuario == u)).map (fun r => r.Unidades)).sum)
    (((rows.filter (fun r => r.Usuario == u)).map (fun r => r.Caixas)).sum)
    ((((rows.filter (fun r => r.Usuario == u)).map (fun r => r.Unidades)).sum)
      + (((rows.filter (fun r => r.Usuario == u)).map (fun r => r.Caixas)).sum))

/-- Per-user sums of source lines 117-124, sorted by total descending. -/
def perUser (rows : List Row) : List UserAgg :=
  sortByLe (fun a b => decide (b.total < a.total))
    ((usersOf rows).map (userAggOf rows))

/-- Aggregate of one hour (the map body of source lines 127-130). -/
def hourAggOf (rows : List Row) (h : Nat) : HourAgg :=
  HourAgg.mk h
    (((rows.filter (fun r => r.Hora == h)).map (fun r => r.Unidades)).sum)
    (((rows.filter (fun r => r.Hora == h)).map (fun r => r.Caixas)).sum)
    ((((rows.filter (fun r => r.Hora == h)).map (fun r => r.Unidades)).sum)
      + (((rows.filter (fun r => r.Hora == h)).map (fun r => r.Caixas)).sum))

/-- Per-hour sums of source lines 126-132, in ascending hour order. -/
def perHour (rows : List Row) : List HourAgg :=
  (hoursOf rows).map (hourAggOf rows)

/-- Loop of `paretoCount` (source lines 555-557): walk the sorted values,
breaking as soon as the accumulated share reaches 0.8; the result is the
1-based index at the break, or one past the end when it never breaks. -/
def paretoGo (total : ℚ) : List ℚ → ℚ → Nat → Nat
  | [], _, i => i + 1
  | v :: rest, acc, i =>
    if (acc + v) / total ≥ (0.8 : ℚ) then i + 1
    else paretoGo total rest (acc + v) (i + 1)

/-- `paretoCount` of source lines 552-558: the `|| 1` guard turns a zero
total into 1, then the values are walked in descending order. -/
def paretoCount (vals : List ℚ) : Nat :=
  let total := if vals.sum = 0 then 1 else vals.sum
  paretoGo total (sortByLe (fun a b => decide (b < a)) vals) 0 0

/-- `movingAvg` of source lines 543-550: trailing window that shrinks at the
start; `slice(max(0, i-w+1), i+1)` is take then drop with truncated
subtraction. -/
def movingAvg (arr : List ℚ) (w : Nat) : List ℚ :=
  (List.range arr.length).map (fun i =>
    let seg := (arr.take (i + 1)).drop (i + 1 - w)
    seg.sum / (seg.length : ℚ))

/- -------------------------- Sheet locator --------------------------- -/

/-- Collapse runs of whitespace to a single space, as the regex replace of
source line 487 (the flag records whether the previous character was
whitespace). -/
def collapseWsAux : Bool → List Char → List Char
  | _, [] => []
  | prevWs, c :: rest =>
    if isJsWs c then
      if prevWs then collapseWsAux true rest else ' ' :: collapseWsAux true rest
    else c :: collapseWsAux false rest

/-- Sheet-name normalisation of source line 487: collapse whitespace, trim,
uppercase. -/
def normName (s : String) : String :=
  String.mk (jsUpperL (jsTrimL (collapseWsAux false s.data)))

/-- `getSheetByNameLike` of source lines 486-494, over the ordered sheet-name
list: first exact normalized match, else first substring match, else none. -/
def getSheetByNameLike (names : List String) (expected : String) : Option String :=
  let wanted := normName expected
  match names.find? (fun n => normName n == wanted) with
  | some n => some n
  | none => names.find? (fun n => containsChars wanted.data (normName n).data)

/- ==================== supporting lemmas ==================== -/

/-- Sorting an all-zero list of rationals descending leaves it unchanged. -/
lemma sortDesc_of_all_zero (l : List ℚ) (h : ∀ v ∈ l, v = 0) :
    sortByLe (fun a b => decide (b < a)) l = l := by
  induction l with
  | nil => rfl
  | cons x xs ih =>
    have hx : x = 0 := h x (by simp)
    have hxs : ∀ v ∈ xs, v = 0 := fun v hv => h v (by simp [hv])
    have hrec : sortByLe (fun a b => decide (b < a)) xs = xs := ih hxs
    have hstep : sortByLe (fun a b => decide (b < a)) (x :: xs)
        = insertLe (fun a b => decide (b < a)) x xs := by
      simp [sortByLe, List.foldr] at hrec ⊢
      rw [hrec]
    rw [hstep, hx]
    cases xs with
    | nil => rfl
    | cons y ys =>
      have hy : y = 0 := hxs y (by simp)
      simp [insertLe, hy]

/-- The pareto loop never breaks over zeros: it runs off the end. -/
lemma paretoGo_all_zero (l : List ℚ) (h : ∀ v ∈ l, v = 0) :
    ∀ i, paretoGo 1 l 0 i = i + l.length + 1 := by
  induction l with
  | nil => intro i; simp [paretoGo]
  | cons x xs ih =>
    intro i
    have hx : x = 0 := h x (by simp)
    have hxs : ∀ v ∈ xs, v = 0 := fun v hv => h v (by simp [hv])
    rw [show (x :: xs).length = xs.length + 1 by simp]
    simp only [paretoGo, hx, add_zero]
    rw [if_neg (by norm_num)]
    rw [ih hxs (i + 1)]
    omega

/-- Nonnegative rationals summing to zero are all zero. -/
lemma all_zero_of_nonneg_sum_zero (l : List ℚ) (hnn : ∀ v ∈ l, 0 ≤ v) (hs : l.sum = 0) :
    ∀ v ∈ l, v = 0 := by
  induction l with
  | nil => intro v hv; simp at hv
  | cons x xs ih =>
    have hx : 0 ≤ x := hnn x (by simp)
    have hxs : ∀ v ∈ xs, 0 ≤ v := fun v hv => hnn v (by simp [hv])
    have hsum : 0 ≤ xs.sum := List.sum_nonneg hxs
    have hx0 : x = 0 ∧ xs.sum = 0 := by
      constructor <;> (simp [List.sum_cons] at hs; linarith)
    intro v hv
    rcases List.mem_cons.mp hv with h | h
    · rw [h, hx0.1]
    · exact ih hxs hx0.2 v h

/-- Prefix sums of a rational list as index sums with default 0. -/
lemma take_sum_eq_range (l : List ℚ) : ∀ k, (l.take k).sum = ∑ j in Finset.range k, l.getD j 0 := by
  induction l with
  | nil => intro k; simp
  | cons x xs ih =>
    intro k
    cases k with
    | zero => simp
    | succ n =>
      rw [Finset.sum_range_succ']
      simp [List.take_succ_cons, ih n]
      ring

/- ==================== claim theorems ==================== -/

/-- C1 counterexample: paretoCount on [50,30,10,10] does not return 3 as the
claim states, because the cumulative share 80/100 already reaches the 0.8
threshold at the second element. -/
theorem c1_counterexample : paretoCount [50, 30, 10, 10] ≠ 3 := by
  with_unfolding_all decide

/-- C1 (amended): for the input values [50,30,10,10] (total 100), the
cumulative sum 50+30 = 80 already meets the threshold (80 is at least 80
percent of the total), so paretoCount returns 2. -/
theorem c1_pareto_cutoff : paretoCount [50, 30, 10, 10] = 2 := by
  with_unfolding_all decide

/-- C4: merging units tuples with cases tuples keyed by (user, hour): for
disjoint keys each tuple yields an independent record with the other metric
defaulted to 0, and for a shared key exactly one record results, carrying
the units value as units and the cases value as cases. -/
theorem c4_merge_keyed :
    mergePivots [PivotRow.mk "A" 8 10] [PivotRow.mk "B" 8 5]
      = [Row.mk "A" 8 10 0, Row.mk "B" 8 0 5]
    ∧ mergePivots [PivotRow.mk "A" 8 10] [PivotRow.mk "A" 8 7]
      = [Row.mk "A" 8 10 7] := by
  with_unfolding_all decide

/-- C7: the numeric coercion strips dots, swaps the first comma for a point
and keeps only finite parses: 1.234,5 gives 1234.5, 12,0 gives 12, abc and
the empty text give nothing; and a non-finite cell is silently skipped
without aborting the row or emitting a zero tuple. -/
theorem c7_numeric_coercion :
    coerceNum ("1.234,5".data) = some (1234.5 : ℚ)
    ∧ coerceNum ("12,0".data) = some (12 : ℚ)
    ∧ coerceNum ("abc".data) = none
    ∧ coerceNum ("".data) = none
    ∧ parsePivot [[Cell.str "USUÁRIO", Cell.str "H8", Cell.str "H9"],
        [Cell.str "Ana", Cell.str "abc", Cell.str "12,0"]]
      = [PivotRow.mk "Ana" 9 12] := by
  refine ⟨?_, ?_, ?_, ?_, ?_⟩ <;> with_unfolding_all rfl

/-- C10 counterexample: the list [5,-5] is non-empty and sums to 0, yet
paretoCount returns 1, not length+1 = 3: the first sorted element already
clears the guarded threshold. -/
theorem c10_counterexample :
    List.sum [(5 : ℚ), -5] = 0 ∧ ([(5 : ℚ), -5] ≠ [])
    ∧ paretoCount [(5 : ℚ), -5] ≠ [(5 : ℚ), -5].length + 1 := by
  with_unfolding_all decide

/-- C10 (amended): for every non-empty list of n nonnegative values whose sum
is 0 (equivalently, all zeros), paretoCount returns n+1: the guarded
denominator of 1 makes the 80 percent threshold unreachable and the loop
runs off the end, so the returned cutoff is not bounded by the length of the
input. -/
theorem c10_pareto_zero_sum (l : List ℚ) (hne : l ≠ []) (hnn : ∀ v ∈ l, 0 ≤ v)
    (hs : l.sum = 0) : paretoCount l = l.length + 1 := by
  have hz : ∀ v ∈ l, v = 0 := all_zero_of_nonneg_sum_zero l hnn hs
  have hsorted := sortDesc_of_all_zero l hz
  have h1 : (if l.sum = 0 then (1 : ℚ) else l.sum) = 1 := by rw [hs]; simp
  simp only [paretoCount]
  rw [h1, hsorted, paretoGo_all_zero l hz 0]
  omega

/-- C10 witness: paretoCount on [0,0] returns 3, one more than the length. -/
theorem c10_pareto_zero_sum_witness : paretoCount [(0 : ℚ), 0] = 3 := by
  have h := c10_pareto_zero_sum [(0 : ℚ), 0] (by simp) (by norm_num) (by norm_num)
  simpa using h

/-- C8: for every value list and window of at least 1, the moving average
keeps the input length and its element at index i is the arithmetic mean of
the inputs at indices max(0, i-w+1) through i (trailing window shrinking at
the start); window 3 over [10,20,30,40] yields [10,15,20,30]. -/
theorem c8_moving_average (arr : List ℚ) (w : Nat) (hw : 1 ≤ w) (i : Nat)
    (hi : i < arr.length) :
    (movingAvg arr w).length = arr.length
    ∧ (movingAvg arr w).getD i 0
        = (∑ j in Finset.Icc (i + 1 - w) i, arr.getD j 0) / ((min w (i + 1) : Nat) : ℚ)
    ∧ movingAvg [10, 20, 30, 40] 3 = [10, 15, 20, 30] := by
  refine ⟨by simp [movingAvg], ?_, by with_unfolding_all decide⟩
  have hlen : i < (movingAvg arr w).length := by simp [movingAvg, hi]
  rw [List.getD_eq_getElem _ _ hlen]
  simp only [movingAvg, List.getElem_map, List.getElem_range]
  have hL : ((arr.take (i + 1)).drop (i + 1 - w)).length = min w (i + 1) := by
    simp only [List.length_drop, List.length_take]
    omega
  have htt : (arr.take (i + 1)).take (i + 1 - w) = arr.take (i + 1 - w) := by
    rw [List.take_take]
    congr 1
    omega
  have hsplit : ((arr.take (i + 1)).take (i + 1 - w)).sum
      + ((arr.take (i + 1)).drop (i + 1 - w)).sum = (arr.take (i + 1)).sum := by
    rw [← List.sum_append, List.take_append_drop]
  have hseg : ((arr.take (i + 1)).drop (i + 1 - w)).sum
      = ∑ j in Finset.Icc (i + 1 - w) i, arr.getD j 0 := by
    rw [← Nat.Ico_succ_right, Finset.sum_Ico_eq_sub _ (by omega),
      ← take_sum_eq_range, ← take_sum_eq_range]
    rw [htt] at hsplit
    linarith
  rw [hseg, hL]

/-- C8 witness: the moving average of [10,20,30,40] with window 3 has length
4 and equals [10,15,20,30]. -/
theorem c8_moving_average_witness :
    (movingAvg [10, 20, 30, 40] 3).length = 4
    ∧ movingAvg [10, 20, 30, 40] 3 = [10, 15, 20, 30] := by
  have h := c8_moving_average [10, 20, 30, 40] 3 (by norm_num) 1 (by norm_num)
  exact ⟨by simpa using h.1, h.2.2⟩

/-- Step equation of the walk: an empty user cell skips the row. -/
lemma dataWalk_cons_skip (colUser : Nat) (cols : List (Nat × Nat)) (row : List Cell)
    (rest : List (List Cell))
    (h : (jsTrimL (cellChars (row.getD colUser Cell.null))).isEmpty = true) :
    dataWalk colUser cols (row :: rest) = dataWalk colUser cols rest := by
  simp only [dataWalk]
  rw [if_pos h]

/-- Step equation of the walk: a TOTAL user cell stops everything. -/
lemma dataWalk_cons_stop (colUser : Nat) (cols : List (Nat × Nat)) (row : List Cell)
    (rest : List (List Cell))
    (h1 : (jsTrimL (cellChars (row.getD colUser Cell.null))).isEmpty = false)
    (h2 : containsChars ("TOTAL".data)
      (jsUpperL (jsTrimL (cellChars (row.getD colUser Cell.null)))) = true) :
    dataWalk colUser cols (row :: rest) = [] := by
  simp only [dataWalk]
  rw [if_neg (by rw [h1]; exact Bool.false_ne_true), if_pos h2]

/-- Step equation of the walk: an ordinary row emits its tuples. -/
lemma dataWalk_cons_emit (colUser : Nat) (cols : List (Nat × Nat)) (row : List Cell)
    (rest : List (List Cell))
    (h1 : (jsTrimL (cellChars (row.getD colUser Cell.null))).isEmpty = false)
    (h2 : containsChars ("TOTAL".data)
      (jsUpperL (jsTrimL (cellChars (row.getD colUser Cell.null)))) = false) :
    dataWalk colUser cols (row :: rest)
      = rowTuples (String.mk (jsTrimL (cellChars (row.getD colUser Cell.null)))) cols row
        ++ dataWalk colUser cols rest := by
  simp only [dataWalk]
  rw [if_neg (by rw [h1]; exact Bool.false_ne_true),
    if_neg (by rw [h2]; exact Bool.false_ne_true)]

/-- C5: a data row whose trimmed user text is nonempty and contains TOTAL
once uppercased terminates the walk permanently, whatever follows it; a row
whose user cell is empty is merely skipped, not a terminator; and data rows
Ana 5, TOTAL 99, Bruno 3 below a header yield tuples only for Ana. -/
theorem c5_total_terminates (colUser : Nat) (cols : List (Nat × Nat))
    (rows1 rows2 : List (List Cell)) (trow erow : List Cell)
    (hne : (jsTrimL (cellChars (trow.getD colUser Cell.null))).isEmpty = false)
    (htot : containsChars ("TOTAL".data)
      (jsUpperL (jsTrimL (cellChars (trow.getD colUser Cell.null)))) = true)
    (hemp : (jsTrimL (cellChars (erow.getD colUser Cell.null))).isEmpty = true) :
    dataWalk colUser cols (rows1 ++ trow :: rows2) = dataWalk colUser cols rows1
    ∧ dataWalk colUser cols (erow :: rows2) = dataWalk colUser cols rows2
    ∧ parsePivot [[Cell.str "USUÁRIO", Cell.str "Hora 8"], [Cell.str "Ana", Cell.num 5],
        [Cell.str "TOTAL", Cell.num 99], [Cell.str "Bruno", Cell.num 3]]
      = [PivotRow.mk "Ana" 8 5] := by
  refine ⟨?_, dataWalk_cons_skip colUser cols erow rows2 hemp, by with_unfolding_all rfl⟩
  induction rows1 with
  | nil =>
    rw [List.nil_append, dataWalk_cons_stop colUser cols trow rows2 hne htot]
    rfl
  | cons r rs ih =>
    rw [List.cons_append]
    cases h1 : (jsTrimL (cellChars (r.getD colUser Cell.null))).isEmpty with
    | true =>
      rw [dataWalk_cons_skip colUser cols r _ h1, dataWalk_cons_skip colUser cols r rs h1]
      exact ih
    | false =>
      cases h2 : containsChars ("TOTAL".data)
          (jsUpperL (jsTrimL (cellChars (r.getD colUser Cell.null)))) with
      | true =>
        rw [dataWalk_cons_stop colUser cols r _ h1 h2,
          dataWalk_cons_stop colUser cols r rs h1 h2]
      | false =>
        rw [dataWalk_cons_emit colUser cols r _ h1 h2,
          dataWalk_cons_emit colUser cols r rs h1 h2, ih]

/-- C5 witness: with user column 0 and hour column (1, 8), walking the rows
Ana, TOTAL, Bruno equals walking just Ana, and the example matrix parses to
the single tuple for Ana. -/
theorem c5_total_terminates_witness :
    dataWalk 0 [(1, 8)] [[Cell.str "Ana", Cell.num 5], [Cell.str "TOTAL", Cell.num 99],
        [Cell.str "Bruno", Cell.num 3]]
      = dataWalk 0 [(1, 8)] [[Cell.str "Ana", Cell.num 5]]
    ∧ parsePivot [[Cell.str "USUÁRIO", Cell.str "Hora 8"], [Cell.str "Ana", Cell.num 5],
        [Cell.str "TOTAL", Cell.num 99], [Cell.str "Bruno", Cell.num 3]]
      = [PivotRow.mk "Ana" 8 5] := by
  have h := c5_total_terminates 0 [(1, 8)] [[Cell.str "Ana", Cell.num 5]]
    [[Cell.str "Bruno", Cell.num 3]] [Cell.str "TOTAL", Cell.num 99] []
    (by with_unfolding_all rfl) (by with_unfolding_all rfl) (by with_unfolding_all rfl)
  exact ⟨by simpa using h.1, h.2.2⟩

/-- Hour values accepted from a header cell are at most 23. -/
lemma hourOfHeaderCell_le (cell : Cell) (n : Nat) (h : hourOfHeaderCell cell = some n) :
    n ≤ 23 := by
  cases hfd : firstDigitRun (cellChars cell) with
  | none => simp [hourOfHeaderCell, hfd] at h
  | some m =>
    simp only [hourOfHeaderCell, hfd] at h
    by_cases hm : m ≤ 23
    · simp [hm] at h
      omega
    · simp [hm] at h

/-- Every registered hour column carries an hour of at most 23. -/
lemma extractHourCols_le (header : List Cell) (colUser : Nat) (hc : Nat × Nat)
    (h : hc ∈ extractHourCols header colUser) : hc.2 ≤ 23 := by
  simp only [extractHourCols, List.mem_filterMap, List.mem_range] at h
  obtain ⟨c, _, hopt⟩ := h
  by_cases hcu : colUser + 1 ≤ c
  · rw [if_pos hcu] at hopt
    cases hval : hourOfHeaderCell (header.getD c Cell.null) with
    | none => rw [hval] at hopt; simp at hopt
    | some n =>
      rw [hval] at hopt
      simp only [Option.map_some'] at hopt
      injection hopt with h3
      rw [← h3]
      exact hourOfHeaderCell_le _ n hval
  · rw [if_neg hcu] at hopt
    simp at hopt

/-- Every tuple a row emits draws its hour from the hour-column list. -/
lemma rowTuples_hour_mem (name : String) (cols : List (Nat × Nat)) (row : List Cell)
    (t : PivotRow) (h : t ∈ rowTuples name cols row) : ∃ hc ∈ cols, t.Hora = hc.2 := by
  simp only [rowTuples, List.mem_filterMap] at h
  obtain ⟨hc, hmem, hopt⟩ := h
  cases hv : coerceNum (cellChars (row.getD hc.1 Cell.null)) with
  | none => rw [hv] at hopt; simp at hopt
  | some v =>
    rw [hv] at hopt
    simp only [Option.map_some'] at hopt
    injection hopt with h3
    exact ⟨hc, hmem, by rw [← h3]⟩

/-- Every tuple the data walk emits draws its hour from the hour-column
list. -/
lemma dataWalk_hour_mem (colUser : Nat) (cols : List (Nat × Nat)) :
    ∀ rows t, t ∈ dataWalk colUser cols rows → ∃ hc ∈ cols, t.Hora = hc.2 := by
  intro rows
  induction rows with
  | nil => intro t ht; simp [dataWalk] at ht
  | cons row rest ih =>
    intro t ht
    cases h1 : (jsTrimL (cellChars (row.getD colUser Cell.null))).isEmpty with
    | true =>
      rw [dataWalk_cons_skip colUser cols row rest h1] at ht
      exact ih t ht
    | false =>
      cases h2 : containsChars ("TOTAL".data)
          (jsUpperL (jsTrimL (cellChars (row.getD colUser Cell.null)))) with
      | true =>
        rw [dataWalk_cons_stop colUser cols row rest h1 h2] at ht
        simp at ht
      | false =>
        rw [dataWalk_cons_emit colUser cols row rest h1 h2] at ht
        rcases List.mem_append.mp ht with h | h
        · exact rowTuples_hour_mem _ _ _ _ h
        · exact ih t h

/-- Equation of the parser when no header row is found. -/
lemma parsePivot_eq_nil_of_none (matrix : List (List Cell))
    (hf : matrix.findIdx? rowHasUsuario = none) : parsePivot matrix = [] := by
  unfold parsePivot
  rw [hf]

/-- Equation of the parser when the header row is found at `hIdx`. -/
lemma parsePivot_eq_of_some (matrix : List (List Cell)) (hIdx : Nat)
    (hf : matrix.findIdx? rowHasUsuario = some hIdx) :
    parsePivot matrix = parseWithHeader matrix hIdx := by
  unfold parsePivot
  rw [hf]

/-- Equation of the header stage when no user column is found. -/
lemma parseWithHeader_eq_nil_of_none (matrix : List (List Cell)) (hIdx : Nat)
    (hcu : (matrix.getD hIdx []).findIdx? isUserHeaderCell = none) :
    parseWithHeader matrix hIdx = [] := by
  unfold parseWithHeader
  rw [hcu]

/-- Equation of the header stage when the user column is found. -/
lemma parseWithHeader_eq_of_some (matrix : List (List Cell)) (hIdx colUser : Nat)
    (hcu : (matrix.getD hIdx []).findIdx? isUserHeaderCell = some colUser) :
    parseWithHeader matrix hIdx
      = (if (extractHourCols (matrix.getD hIdx []) colUser).isEmpty = true then []
        else dataWalk colUser (extractHourCols (matrix.getD hIdx []) colUser)
          (matrix.drop (hIdx + 1))) := by
  unfold parseWithHeader
  rw [hcu]

/-- C6: every tuple emitted by parsePivot has an hour of at most 23 (hours
are naturals, so they lie in [0,23]); a header column reading Hora 25 is
discarded, contributing no tuples and never being clamped. -/
theorem c6_hour_range (matrix : List (List Cell)) (t : PivotRow)
    (ht : t ∈ parsePivot matrix) :
    t.Hora ≤ 23
    ∧ parsePivot [[Cell.str "USUÁRIO", Cell.str "Hora 25", Cell.str "Hora 8"],
        [Cell.str "Ana", Cell.num 1, Cell.num 2]] = [PivotRow.mk "Ana" 8 2] := by
  refine ⟨?_, by with_unfolding_all rfl⟩
  cases hf : matrix.findIdx? rowHasUsuario with
  | none => rw [parsePivot_eq_nil_of_none matrix hf] at ht; simp at ht
  | some hIdx =>
    rw [parsePivot_eq_of_some matrix hIdx hf] at ht
    cases hcu : (matrix.getD hIdx []).findIdx? isUserHeaderCell with
    | none => rw [parseWithHeader_eq_nil_of_none matrix hIdx hcu] at ht; simp at ht
    | some colUser =>
      rw [parseWithHeader_eq_of_some matrix hIdx colUser hcu] at ht
      by_cases hempty : (extractHourCols (matrix.getD hIdx []) colUser).isEmpty = true
      · rw [if_pos hempty] at ht; simp at ht
      · rw [if_neg hempty] at ht
        obtain ⟨hc, hmem, heq⟩ := dataWalk_hour_mem colUser _ _ t ht
        rw [heq]
        exact extractHourCols_le _ _ _ hmem

/-- C6 witness: the tuple emitted for the concrete matrix has hour 8, within
range, and the Hora 25 column is indeed absent from the output. -/
theorem c6_hour_range_witness :
    (PivotRow.mk "Ana" 8 2).Hora ≤ 23
    ∧ parsePivot [[Cell.str "USUÁRIO", Cell.str "Hora 25", Cell.str "Hora 8"],
        [Cell.str "Ana", Cell.num 1, Cell.num 2]] = [PivotRow.mk "Ana" 8 2] := by
  have e : parsePivot [[Cell.str "USUÁRIO", Cell.str "Hora 25", Cell.str "Hora 8"],
      [Cell.str "Ana", Cell.num 1, Cell.num 2]] = [PivotRow.mk "Ana" 8 2] := by
    with_unfolding_all rfl
  exact c6_hour_range _ (PivotRow.mk "Ana" 8 2) (by rw [e]; simp)

/-- C2 counterexample: a matrix whose only candidate cell carries surrounding
whitespace has a row whose trimmed uppercased cell equals USUÁRIO, yet
parsePivot returns the empty sequence: the header-row scan does not trim, so
the row is not recognized, refuting the claim that such a matrix still has
its header recognized and that only matrices with no such row yield empty. -/
theorem c2_counterexample :
    jsTrimL (jsUpperL (cellChars (Cell.str " usuário "))) = "USUÁRIO".data
    ∧ parsePivot [[Cell.str " usuário ", Cell.str "Hora 8"],
        [Cell.str "Ana", Cell.num 5]] = [] := by
  exact ⟨by with_unfolding_all rfl, by with_unfolding_all rfl⟩

/-- C2 (amended): the header-row scan matches a cell only when its uppercased
text, with no trimming, equals USUÁRIO exactly; a candidate cell with
surrounding whitespace is not recognized, and every matrix with no cell
whose uppercased untrimmed text equals USUÁRIO yields the empty sequence. -/
theorem c2_no_header_row_empty (matrix : List (List Cell))
    (h : ∀ row ∈ matrix, ∀ c ∈ row, jsUpperL (cellChars c) ≠ "USUÁRIO".data) :
    parsePivot matrix = [] := by
  have hitem : ∀ row ∈ matrix, rowHasUsuario row = false := by
    intro row hrow
    rw [rowHasUsuario, List.any_eq_false]
    intro c hc
    simpa using h row hrow c hc
  have hnone : matrix.findIdx? rowHasUsuario = none :=
    List.findIdx?_eq_none_iff.mpr hitem
  unfold parsePivot
  rw [hnone]

/-- C2 witness: a one-cell matrix with no USUÁRIO label parses to nothing. -/
theorem c2_no_header_row_empty_witness : parsePivot [[Cell.str "nome"]] = [] := by
  exact c2_no_header_row_empty [[Cell.str "nome"]] (by with_unfolding_all decide)

/-- A list is always a prefix of itself. -/
lemma startsWithChars_self (l : List Char) : startsWithChars l l = true := by
  induction l with
  | nil => rfl
  | cons a as ih => simp [startsWithChars, ih]

/-- A text always contains itself as a substring. -/
lemma containsChars_self (l : List Char) : containsChars l l = true := by
  cases l with
  | nil => rfl
  | cons c rest => simp [containsChars, startsWithChars_self]

/-- The first element satisfying `p` after a prefix of failures is what
`find?` returns. -/
lemma find?_append_first {α : Type} (p : α → Bool) (l1 l2 : List α) (x : α)
    (hx : p x = true) (hall : ∀ m ∈ l1, p m = false) :
    (l1 ++ x :: l2).find? p = some x := by
  induction l1 with
  | nil => simp [List.find?, hx]
  | cons m ms ih =>
    have hm : p m = false := hall m (by simp)
    rw [List.cons_append]
    simp only [List.find?, hm]
    exact ih (fun m2 hm2 => hall m2 (by simp [hm2]))

/-- Locator equation when an exact normalized match exists. -/
lemma getSheet_eq_of_exact (names : List String) (expected n : String)
    (hfind : names.find? (fun m => normName m == normName expected) = some n) :
    getSheetByNameLike names expected = some n := by
  simp only [getSheetByNameLike]
  rw [hfind]

/-- Locator equation when no exact normalized match exists. -/
lemma getSheet_eq_fallback (names : List String) (expected : String)
    (hnone : names.find? (fun m => normName m == normName expected) = none) :
    getSheetByNameLike names expected
      = names.find? (fun m => containsChars (normName expected).data (normName m).data) := by
  simp only [getSheetByNameLike]
  rw [hnone]

/-- C9: after normalization (collapse whitespace, trim, uppercase) the sheet
locator returns the first sheet whose normalized name equals the normalized
label, regardless of earlier substring-only matches; when no exact match
exists anywhere, the first sheet whose normalized name contains the label;
and when no name contains the label, no match at all. -/
theorem c9_sheet_locator (names : List String) (expected : String) :
    (∀ names1 n names2, names = names1 ++ n :: names2 →
        normName n = normName expected →
        (∀ m ∈ names1, normName m ≠ normName expected) →
        getSheetByNameLike names expected = some n)
    ∧ (∀ names1 n names2, names = names1 ++ n :: names2 →
        (∀ m ∈ names, normName m ≠ normName expected) →
        containsChars (normName expected).data (normName n).data = true →
        (∀ m ∈ names1, containsChars (normName expected).data (normName m).data = false) →
        getSheetByNameLike names expected = some n)
    ∧ ((∀ m ∈ names, containsChars (normName expected).data (normName m).data = false) →
        getSheetByNameLike names expected = none) := by
  refine ⟨?_, ?_, ?_⟩
  · intro names1 n names2 heq hn hpre
    subst heq
    apply getSheet_eq_of_exact
    apply find?_append_first _ _ _ _ (by simp [hn])
    intro m hm
    simp [hpre m hm]
  · intro names1 n names2 heq hnoex hcont hpre
    have hnone : names.find? (fun m => normName m == normName expected) = none := by
      rw [List.find?_eq_none]
      intro x hx
      simp [hnoex x hx]
    rw [getSheet_eq_fallback names expected hnone]
    subst heq
    exact find?_append_first _ _ _ _ hcont hpre
  · intro hnc
    have hnoex : ∀ m ∈ names, normName m ≠ normName expected := by
      intro m hm heq2
      have hc := hnc m hm
      rw [heq2] at hc
      rw [containsChars_self] at hc
      simp at hc
    have hnone : names.find? (fun m => normName m == normName expected) = none := by
      rw [List.find?_eq_none]
      intro x hx
      simp [hnoex x hx]
    rw [getSheet_eq_fallback names expected hnone]
    rw [List.find?_eq_none]
    intro x hx
    simp [hnc x hx]

/-- C9 witness: an exact match in third position wins over a substring-only
match in second position. -/
theorem c9_sheet_locator_witness :
    getSheetByNameLike ["AB", "x ALTO GIRO x", "ALTO GIRO"] "ALTO GIRO"
      = some "ALTO GIRO" := by
  exact (c9_sheet_locator ["AB", "x ALTO GIRO x", "ALTO GIRO"] "ALTO GIRO").1
    ["AB", "x ALTO GIRO x"] "ALTO GIRO" [] rfl rfl (by with_unfolding_all decide)

/- ---------------- conservation of sums (claim C3) ------------------- -/

/-- Elements produced by the seen-accumulator dedup were not yet seen. -/
lemma jsSetList_not_seen {α : Type} [BEq α] [LawfulBEq α] :
    ∀ (l seen : List α) (a : α), a ∈ jsSetList seen l → seen.contains a = false := by
  intro l
  induction l with
  | nil => intro seen a ha; simp [jsSetList] at ha
  | cons x xs ih =>
    intro seen a ha
    by_cases hx : seen.contains x = true
    · rw [jsSetList, if_pos hx] at ha
      exact ih seen a ha
    · rw [jsSetList, if_neg hx] at ha
      rcases List.mem_cons.mp ha with h | h
      · subst h
        exact Bool.eq_false_iff.mpr hx
      · have h2 := ih (x :: seen) a h
        simp only [List.contains_cons, Bool.or_eq_false_iff] at h2
        exact h2.2

/-- The seen-accumulator dedup emits a list without duplicates. -/
lemma jsSetList_nodup {α : Type} [BEq α] [LawfulBEq α] :
    ∀ (l seen : List α), (jsSetList seen l).Nodup := by
  intro l
  induction l with
  | nil => intro seen; simp [jsSetList]
  | cons x xs ih =>
    intro seen
    by_cases hx : seen.contains x = true
    · rw [jsSetList, if_pos hx]
      exact ih seen
    · rw [jsSetList, if_neg hx]
      refine List.nodup_cons.mpr ⟨?_, ih (x :: seen)⟩
      intro hmem
      have h2 := jsSetList_not_seen xs (x :: seen) x hmem
      simp at h2

/-- Unseen members of the input stay present after the dedup. -/
lemma mem_jsSetList_of_mem {α : Type} [BEq α] [LawfulBEq α] :
    ∀ (l seen : List α) (a : α), a ∈ l → seen.contains a = false → a ∈ jsSetList seen l := by
  intro l
  induction l with
  | nil => intro seen a ha _; simp at ha
  | cons x xs ih =>
    intro seen a ha hseen
    by_cases hax : a = x
    · subst hax
      rw [jsSetList, if_neg (by rw [hseen]; exact Bool.false_ne_true)]
      simp
    · rcases List.mem_cons.mp ha with h | h
      · exact absurd h hax
      · by_cases hx : seen.contains x = true
        · rw [jsSetList, if_pos hx]
          exact ih seen a h hseen
        · rw [jsSetList, if_neg hx]
          refine List.mem_cons.mpr (Or.inr ?_)
          refine ih (x :: seen) a h ?_
          have hamem : a ∉ seen := by simpa using hseen
          simp [hax, hamem]

/-- `dedupFirst` emits a list without duplicates. -/
lemma dedupFirst_nodup {α : Type} [BEq α] [LawfulBEq α] (l : List α) :
    (dedupFirst l).Nodup := jsSetList_nodup l []

/-- Every member of the input appears in its `dedupFirst`. -/
lemma mem_dedupFirst_of_mem {α : Type} [BEq α] [LawfulBEq α] (l : List α) (a : α)
    (h : a ∈ l) : a ∈ dedupFirst l := mem_jsSetList_of_mem l [] a h rfl

/-- Stable insertion permutes to pushing the element on front. -/
lemma insertLe_perm {α : Type} (le : α → α → Bool) (x : α) (l : List α) :
    (insertLe le x l).Perm (x :: l) := by
  induction l with
  | nil => exact List.Perm.refl _
  | cons y ys ih =>
    simp only [insertLe]
    by_cases h : le y x = true
    · rw [if_pos h]
      exact (ih.cons y).trans (List.Perm.swap x y ys)
    · rw [if_neg h]

/-- Insertion sort is a permutation of its input. -/
lemma sortByLe_perm {α : Type} (le : α → α → Bool) (l : List α) :
    (sortByLe le l).Perm l := by
  induction l with
  | nil => exact List.Perm.refl _
  | cons x xs ih =>
    exact (insertLe_perm le x (sortByLe le xs)).trans (ih.cons x)

/-- Splitting a sum over a Boolean test. -/
lemma sum_map_filter_add {α : Type} (p : α → Bool) (f : α → ℚ) (l : List α) :
    ((l.filter p).map f).sum + ((l.filter (fun x => !(p x))).map f).sum
      = (l.map f).sum := by
  induction l with
  | nil => simp
  | cons x xs ih =>
    cases hx : p x with
    | true =>
      simp [List.filter_cons, hx]
      linarith [ih]
    | false =>
      simp [List.filter_cons, hx]
      linarith [ih]

/-- Filtering for a different key commutes past removing one key. -/
lemma filter_key_of_ne {α K : Type} [BEq K] [LawfulBEq K] (k : α → K) (u u' : K)
    (hne : u' ≠ u) (l : List α) :
    (l.filter (fun x => !(k x == u))).filter (fun x => k x == u')
      = l.filter (fun x => k x == u') := by
  induction l with
  | nil => rfl
  | cons x xs ih =>
    by_cases hx : k x = u
    · have h1 : (k x == u) = true := beq_iff_eq.mpr hx
      have h2 : (k x == u') = false := by
        rw [beq_eq_false_iff_ne, hx]
        exact fun hh => hne hh.symm
      simp [List.filter_cons, h1, h2, ih]
    · have h1 : (k x == u) = false := beq_eq_false_iff_ne.mpr hx
      by_cases hx2 : k x = u'
      · have h2 : (k x == u') = true := beq_iff_eq.mpr hx2
        simp [List.filter_cons, h1, h2, ih]
      · have h2 : (k x == u') = false := beq_eq_false_iff_ne.mpr hx2
        simp [List.filter_cons, h1, h2, ih]

/-- Partition identity: summing each key group over a duplicate-free cover of
keys recovers the total sum. -/
lemma sum_partition {α K : Type} [BEq K] [LawfulBEq K] (k : α → K) (f : α → ℚ) :
    ∀ (keys : List K) (l : List α), keys.Nodup → (∀ x ∈ l, k x ∈ keys) →
      (keys.map (fun u => ((l.filter (fun x => k x == u)).map f).sum)).sum
        = (l.map f).sum := by
  intro keys
  induction keys with
  | nil =>
    intro l _ hcov
    cases l with
    | nil => simp
    | cons x xs => exact absurd (hcov x (by simp)) (by simp)
  | cons u ks ih =>
    intro l hnd hcov
    have hu_not : u ∉ ks := (List.nodup_cons.mp hnd).1
    have hnd2 : ks.Nodup := (List.nodup_cons.mp hnd).2
    have hmapeq : ks.map (fun u2 => ((l.filter (fun x => k x == u2)).map f).sum)
        = ks.map (fun u2 =>
            (((l.filter (fun x => !(k x == u))).filter (fun x => k x == u2)).map f).sum) := by
      apply List.map_congr_left
      intro u2 hu2
      have hne : u2 ≠ u := fun h => hu_not (h ▸ hu2)
      rw [filter_key_of_ne k u u2 hne l]
    have hcov2 : ∀ x ∈ l.filter (fun x => !(k x == u)), k x ∈ ks := by
      intro x hx
      have hxl := List.mem_filter.mp hx
      have hxne : k x ≠ u := by
        have h2 := hxl.2
        intro heq
        rw [beq_iff_eq.mpr heq] at h2
        simp at h2
      rcases List.mem_cons.mp (hcov x hxl.1) with h | h
      · exact absurd h hxne
      · exact h
    rw [List.map_cons, List.sum_cons, hmapeq,
      ih (l.filter (fun x => !(k x == u))) hnd2 hcov2]
    exact sum_map_filter_add (fun x => k x == u) f l

/-- Sums distribute over pointwise addition under a map. -/
lemma sum_map_add {α : Type} (f g : α → ℚ) (l : List α) :
    (l.map (fun x => f x + g x)).sum = (l.map f).sum + (l.map g).sum := by
  induction l with
  | nil => simp
  | cons x xs ih =>
    simp only [List.map_cons, List.sum_cons, ih]
    ring

/-- Keys of `usersOf` cover every record and repeat no user. -/
lemma usersOf_nodup (rows : List Row) : (usersOf rows).Nodup := by
  unfold usersOf
  exact dedupFirst_nodup _

/-- Every record owner appears among the distinct users. -/
lemma mem_usersOf (rows : List Row) (r : Row) (h : r ∈ rows) :
    r.Usuario ∈ usersOf rows := by
  unfold usersOf
  exact mem_dedupFirst_of_mem _ _ (List.mem_map_of_mem _ h)

/-- The sorted distinct hours repeat no hour. -/
lemma hoursOf_nodup (rows : List Row) : (hoursOf rows).Nodup := by
  unfold hoursOf
  exact ((sortByLe_perm _ _).nodup_iff).mpr (dedupFirst_nodup _)

/-- Every record hour appears among the sorted distinct hours. -/
lemma mem_hoursOf (rows : List Row) (r : Row) (h : r ∈ rows) :
    r.Hora ∈ hoursOf rows := by
  unfold hoursOf
  exact ((sortByLe_perm _ _).mem_iff).mpr
    (mem_dedupFirst_of_mem _ _ (List.mem_map_of_mem _ h))

/-- Sum of one projected field over the per-user aggregates equals the sum of
its filtered group sums over the distinct users. -/
lemma perUser_map_sum (rows : List Row) (g : UserAgg → ℚ) :
    ((perUser rows).map g).sum = ((usersOf rows).map (fun u => g (userAggOf rows u))).sum := by
  have hperm := (sortByLe_perm (fun a b => decide (b.total < a.total))
    ((usersOf rows).map (userAggOf rows))).map g
  unfold perUser
  rw [hperm.sum_eq, List.map_map]
  rfl

/-- C3: for every record set, the per-user aggregates and the per-hour
aggregates both conserve the units sum, the cases sum, and the grand total
(sum of units plus cases over all records). -/
theorem c3_conservation (rows : List Row) :
    ((perUser rows).map (fun a => a.un)).sum = (rows.map (fun r => r.Unidades)).sum
    ∧ ((perUser rows).map (fun a => a.cx)).sum = (rows.map (fun r => r.Caixas)).sum
    ∧ ((perUser rows).map (fun a => a.total)).sum
        = (rows.map (fun r => r.Unidades + r.Caixas)).sum
    ∧ ((perHour rows).map (fun a => a.un)).sum = (rows.map (fun r => r.Unidades)).sum
    ∧ ((perHour rows).map (fun a => a.cx)).sum = (rows.map (fun r => r.Caixas)).sum
    ∧ ((perHour rows).map (fun a => a.total)).sum
        = (rows.map (fun r => r.Unidades + r.Caixas)).sum := by
  have hUun : ((perUser rows).map (fun a => a.un)).sum
      = (rows.map (fun r => r.Unidades)).sum := by
    rw [perUser_map_sum rows (fun a => a.un)]
    exact sum_partition (fun r => r.Usuario) (fun r => r.Unidades) (usersOf rows) rows
      (usersOf_nodup rows) (fun x hx => mem_usersOf rows x hx)
  have hUcx : ((perUser rows).map (fun a => a.cx)).sum
      = (rows.map (fun r => r.Caixas)).sum := by
    rw [perUser_map_sum rows (fun a => a.cx)]
    exact sum_partition (fun r => r.Usuario) (fun r => r.Caixas) (usersOf rows) rows
      (usersOf_nodup rows) (fun x hx => mem_usersOf rows x hx)
  have hUtot : ((perUser rows).map (fun a => a.total)).sum
      = (rows.map (fun r => r.Unidades + r.Caixas)).sum := by
    rw [perUser_map_sum rows (fun a => a.total)]
    have hsplit : ((usersOf rows).map (fun u => (userAggOf rows u).total)).sum
        = ((usersOf rows).map (fun u => (userAggOf rows u).un)).sum
          + ((usersOf rows).map (fun u => (userAggOf rows u).cx)).sum :=
      sum_map_add (fun u => (userAggOf rows u).un) (fun u => (userAggOf rows u).cx)
        (usersOf rows)
    rw [hsplit]
    have h1 := sum_partition (fun r => r.Usuario) (fun r => r.Unidades) (usersOf rows) rows
      (usersOf_nodup rows) (fun x hx => mem_usersOf rows x hx)
    have h2 := sum_partition (fun r => r.Usuario) (fun r => r.Caixas) (usersOf rows) rows
      (usersOf_nodup rows) (fun x hx => mem_usersOf rows x hx)
    rw [show ((usersOf rows).map (fun u => (userAggOf rows u).un)).sum
        = (rows.map (fun r => r.Unidades)).sum from h1,
      show ((usersOf rows).map (fun u => (userAggOf rows u).cx)).sum
        = (rows.map (fun r => r.Caixas)).sum from h2]
    rw [sum_map_add (fun r => r.Unidades) (fun r => r.Caixas) rows]
  have hHun : ((perHour rows).map (fun a => a.un)).sum
      = (rows.map (fun r => r.Unidades)).sum := by
    rw [perHour, List.map_map]
    exact sum_partition (fun r => r.Hora) (fun r => r.Unidades) (hoursOf rows) rows
      (hoursOf_nodup rows) (fun x hx => mem_hoursOf rows x hx)
  have hHcx : ((perHour rows).map (fun a => a.cx)).sum
      = (rows.map (fun r => r.Caixas)).sum := by
    rw [perHour, List.map_map]
    exact sum_partition (fun r => r.Hora) (fun r => r.Caixas) (hoursOf rows) rows
      (hoursOf_nodup rows) (fun x hx => mem_hoursOf rows x hx)
  have hHtot : ((perHour rows).map (fun a => a.total)).sum
      = (rows.map (fun r => r.Unidades + r.Caixas)).sum := by
    rw [perHour, List.map_map]
    have hsplit : ((hoursOf rows).map (fun h => (hourAggOf rows h).total)).sum
        = ((hoursOf rows).map (fun h => (hourAggOf rows h).un)).sum
          + ((hoursOf rows).map (fun h => (hourAggOf rows h).cx)).sum :=
      sum_map_add (fun h => (hourAggOf rows h).un) (fun h => (hourAggOf rows h).cx)
        (hoursOf rows)
    rw [show ((hoursOf rows).map ((fun a => a.total) ∘ hourAggOf rows)).sum
        = ((hoursOf rows).map (fun h => (hourAggOf rows h).total)).sum from rfl, hsplit]
    have h1 := sum_partition (fun r => r.Hora) (fun r => r.Unidades) (hoursOf rows) rows
      (hoursOf_nodup rows) (fun x hx => mem_hoursOf rows x hx)
    have h2 := sum_partition (fun r => r.Hora) (fun r => r.Caixas) (hoursOf rows) rows
      (hoursOf_nodup rows) (fun x hx => mem_hoursOf rows x hx)
    rw [show ((hoursOf rows).map (fun h => (hourAggOf rows h).un)).sum
        = (rows.map (fun r => r.Unidades)).sum from h1,
      show ((hoursOf rows).map (fun h => (hourAggOf rows h).cx)).sum
        = (rows.map (fun r => r.Caixas)).sum from h2]
    rw [sum_map_add (fun r => r.Unidades) (fun r => r.Caixas) rows]
  exact ⟨hUun, hUcx, hUtot, hHun, hHcx, hHtot⟩

end Reposicao
